import Mathlib

/-!
# strfry websocket transport: `src/RelayWebsocket.cpp`

A shallow embedding of `RelayServer::runWebsocket` and of the helper
`preGenerateHttpResponse`, followed by theorems about the connection registry,
the outbound dispatcher, the batched fan-out send and the info responder.

Conventions of the embedding:

* a `std::string` / `std::string_view` is a list of bytes;
* `uint64_t` counters are natural numbers reduced modulo `2 ^ 64` at every
  update;
* the scratch buffer `tempBuf` is addressed through raw pointers in the source
  (`tempBuf.data() + MAX_SUBID_SIZE - subIdSv.size()`), so it is embedded as a
  region of a flat byte memory whose addresses are integers relative to
  `tempBuf.data()`; an access that leaves the storage of the string has no
  defined effect in the source, and the `Checked` variants of the batch loop
  stop at the first such access;
* a `Connection*` is represented by the handle of the socket that owns the
  object as its user data (`ws->setUserData((void*)c)`);
* calls into the transport and into the ingester thread pool are recorded in
  traces carried by the state.
-/

namespace Strfry

/-! ## Bytes and strings -/

abbrev Byte := UInt8

abbrev Bytes := List Byte

/-- The bytes of an ASCII string literal of the source. -/
def ascii (s : String) : Bytes :=
  s.toList.map (fun c => UInt8.ofNat c.toNat)

/-- Digit loop of `std::to_string` on an unsigned value: the least significant
digit is pushed in front of the digits produced so far. -/
def toDecimal : Nat → Nat → Bytes → Bytes
  | 0, _, acc => acc
  | fuel + 1, n, acc =>
    let acc1 := UInt8.ofNat (48 + n % 10) :: acc
    if n / 10 = 0 then acc1 else toDecimal fuel (n / 10) acc1

/-- The decimal rendering `std::to_string(n)` of an unsigned value. -/
def to_string (n : Nat) : Bytes :=
  toDecimal (n + 1) n []

/-- Reading of a decimal number, the inverse of `to_string`; it is how a
client interprets the value of a `Content-Length` header. -/
def parseDecimal (bs : Bytes) : Nat :=
  bs.foldl (fun acc b => acc * 10 + (b.toNat - 48)) 0

/-! ## `preGenerateHttpResponse` (lines 7-17) -/

/-- The function `preGenerateHttpResponse`, statement by statement. -/
def preGenerateHttpResponse (contentType content : Bytes) : Bytes :=
  let output := ascii "HTTP/1.1 200 OK\r\n"
  let output := output ++ (ascii "Content-Type: " ++ contentType ++ ascii "\r\n")
  let output := output ++ ascii "Access-Control-Allow-Origin: *\r\n"
  let output := output ++ ascii "Connection: keep-alive\r\n"
  let output := output ++ ascii "Server: strfry\r\n"
  let output := output ++ (ascii "Content-Length: " ++ to_string content.length ++ ascii "\r\n")
  let output := output ++ ascii "\r\n"
  let output := output ++ content
  output

/-- The constant `defaultHttpResponse` (line 67). -/
def defaultHttpResponse : Bytes :=
  preGenerateHttpResponse (ascii "text/plain") (ascii "Please use a Nostr client to connect.")

/-! ## Info responder (lines 50-65, 82-91) -/

/-- The shape of a `tao::json::value` as far as the info document needs it. -/
inductive JsonValue where
  | string (s : Bytes)
  | number (n : Int)
  | array (items : List JsonValue)
  | object (members : List (Bytes × JsonValue))

/-- The settings read through `cfg()` by the info responder. -/
structure Config where
  version : Nat
  relay__info__name : Bytes
  relay__info__description : Bytes
  relay__info__pubkey : Bytes
  relay__info__contact : Bytes

/-- The captures `ver` and `rendered` of the lambda `getServerInfoHttpResponse`. -/
structure InfoCache where
  ver : Nat
  rendered : Bytes
deriving DecidableEq

/-- The captures as initialised at line 50: `ver = uint64_t(0)`, `rendered = ""`. -/
def InfoCache.init : InfoCache :=
  { ver := 0, rendered := [] }

/-- The JSON value built at lines 52-60; `appGitVersion` stands for the
build-time constant `APP_GIT_VERSION`. -/
def infoDocument (appGitVersion : Bytes) (cfg : Config) : JsonValue :=
  JsonValue.object [
    (ascii "name", JsonValue.string cfg.relay__info__name),
    (ascii "description", JsonValue.string cfg.relay__info__description),
    (ascii "pubkey", JsonValue.string cfg.relay__info__pubkey),
    (ascii "contact", JsonValue.string cfg.relay__info__contact),
    (ascii "supported_nips", JsonValue.array
      [JsonValue.number 1, JsonValue.number 9, JsonValue.number 11, JsonValue.number 12,
       JsonValue.number 15, JsonValue.number 16, JsonValue.number 20, JsonValue.number 22]),
    (ascii "software", JsonValue.string (ascii "git+https://github.com/relayable-org/strfry.git")),
    (ascii "version", JsonValue.string appGitVersion)]

/-- The response rendered inside the `if` of `getServerInfoHttpResponse`;
`jsonToString` stands for the library serialiser `tao::json::to_string`. -/
def renderInfo (jsonToString : JsonValue → Bytes) (appGitVersion : Bytes) (cfg : Config) : Bytes :=
  preGenerateHttpResponse (ascii "application/json") (jsonToString (infoDocument appGitVersion cfg))

/-- One call of the lambda `getServerInfoHttpResponse` under configuration
`cfg`: the captures after the call and the bytes returned. -/
def getServerInfoHttpResponse (jsonToString : JsonValue → Bytes) (appGitVersion : Bytes)
    (cfg : Config) (cap : InfoCache) : InfoCache × Bytes :=
  let cap :=
    if cap.ver ≠ cfg.version then
      { rendered := renderInfo jsonToString appGitVersion cfg, ver := cfg.version }
    else cap
  (cap, cap.rendered)

/-- The HTTP request handler: the bytes written to the response for a request
whose `accept` header is `accept`. -/
def onHttpRequest (jsonToString : JsonValue → Bytes) (appGitVersion : Bytes)
    (cfg : Config) (accept : Bytes) (cap : InfoCache) : InfoCache × Bytes :=
  if accept = ascii "application/nostr+json" then
    getServerInfoHttpResponse jsonToString appGitVersion cfg cap
  else (cap, defaultHttpResponse)

/-! ## Compression ratios of the disconnect handler (lines 128-129)

The ratios are computed in `double`. A `double` is embedded as a rational or
one of the three special values; `rnd` stands for rounding to the nearest
representable value. Zero is the positive zero, the only zero that a
conversion from an unsigned counter produces. -/

inductive F64 where
  | nan
  | posInf
  | negInf
  | finite (q : ℚ)
deriving DecidableEq

/-- The conversion `(double)n` of a `uint64_t`; it is exact below `2 ^ 53`. -/
def F64.ofUInt64 (rnd : ℚ → ℚ) (n : Nat) : F64 :=
  F64.finite (if n < 2 ^ 53 then (n : ℚ) else rnd (n : ℚ))

/-- IEEE 754 division. -/
def F64.div (rnd : ℚ → ℚ) : F64 → F64 → F64
  | F64.nan, _ => F64.nan
  | _, F64.nan => F64.nan
  | F64.finite a, F64.finite b =>
    if b = 0 then
      if a = 0 then F64.nan else if 0 < a then F64.posInf else F64.negInf
    else F64.finite (rnd (a / b))
  | F64.finite _, F64.posInf => F64.finite 0
  | F64.finite _, F64.negInf => F64.finite 0
  | F64.posInf, F64.finite b => if 0 ≤ b then F64.posInf else F64.negInf
  | F64.negInf, F64.finite b => if 0 ≤ b then F64.negInf else F64.posInf
  | F64.posInf, F64.posInf => F64.nan
  | F64.posInf, F64.negInf => F64.nan
  | F64.negInf, F64.posInf => F64.nan
  | F64.negInf, F64.negInf => F64.nan

/-- IEEE 754 subtraction. -/
def F64.sub (rnd : ℚ → ℚ) : F64 → F64 → F64
  | F64.nan, _ => F64.nan
  | _, F64.nan => F64.nan
  | F64.finite a, F64.finite b => F64.finite (rnd (a - b))
  | F64.finite _, F64.posInf => F64.negInf
  | F64.finite _, F64.negInf => F64.posInf
  | F64.posInf, F64.finite _ => F64.posInf
  | F64.negInf, F64.finite _ => F64.negInf
  | F64.posInf, F64.posInf => F64.nan
  | F64.posInf, F64.negInf => F64.posInf
  | F64.negInf, F64.posInf => F64.negInf
  | F64.negInf, F64.negInf => F64.nan

/-- The expression `1.0 - (double)compressed / raw` of lines 128 and 129: the
argument handed to `renderPercent`. -/
def compressionRatio (rnd : ℚ → ℚ) (compressed raw : Nat) : F64 :=
  F64.sub rnd (F64.finite 1) (F64.div rnd (F64.ofUInt64 rnd compressed) (F64.ofUInt64 rnd raw))

/-! ## Flat memory and the scratch buffer `tempBuf` -/

/-- Byte memory addressed relative to `tempBuf.data()`. -/
abbrev Mem := Int → Byte

def poke (m : Mem) (a : Int) (b : Byte) : Mem :=
  fun x => if x = a then b else m x

/-- The call `memcpy(dst, src, |src|)`. -/
def memcpy (m : Mem) (dst : Int) : Bytes → Mem
  | [] => m
  | b :: bs => memcpy (poke m dst b) (dst + 1) bs

/-- The bytes viewed by `std::string_view(p, n)`. -/
def readBytes (m : Mem) (p : Int) : Nat → Bytes
  | 0 => []
  | n + 1 => m p :: readBytes m (p + 1) n

/-- A `std::string` used as a raw buffer: its storage starts at address 0 of
`mem` and holds `size` bytes. `reserve` changes neither and is not embedded. -/
structure TempBuf where
  mem : Mem
  size : Nat

/-- The call `std::string::resize(n)`: truncation, or extension by zero bytes. -/
def TempBuf.resize (tb : TempBuf) (n : Nat) : TempBuf :=
  if n ≤ tb.size then { tb with size := n }
  else { mem := memcpy tb.mem tb.size (List.replicate (n - tb.size) 0), size := n }

/-- The operator `std::string::operator+=`. -/
def TempBuf.append (tb : TempBuf) (s : Bytes) : TempBuf :=
  { mem := memcpy tb.mem tb.size s, size := tb.size + s.length }

/-- The contents of the string. -/
def TempBuf.contents (tb : TempBuf) : Bytes :=
  readBytes tb.mem 0 tb.size

/-! ## Finite maps -/

/-- A finite map with natural-number keys, as a list of entries. -/
abbrev Table (α : Type) := List (Nat × α)

/-- Lookup, `find` of the hash map and dereference of a pointer. -/
def Table.find {α : Type} : Table α → Nat → Option α
  | [], _ => none
  | (k1, v) :: rest, k => if k1 = k then some v else Table.find rest k

/-- Removal of a key, `erase` of the hash map and `delete` of an object. -/
def Table.erase {α : Type} : Table α → Nat → Table α
  | [], _ => []
  | (k1, v) :: rest, k => if k1 = k then Table.erase rest k else (k1, v) :: Table.erase rest k

/-- The call `emplace(k, v)`: it inserts only when the key is absent. -/
def Table.emplace {α : Type} (m : Table α) (k : Nat) (v : α) : Table α :=
  match m.find k with
  | some _ => m
  | none => (k, v) :: m

/-- A fresh object stored under key `k`. -/
def Table.put {α : Type} (m : Table α) (k : Nat) (v : α) : Table α :=
  (k, v) :: m.erase k

/-- In-place modification of the object under key `k`. -/
def Table.modify {α : Type} (m : Table α) (k : Nat) (f : α → α) : Table α :=
  m.map (fun e => if e.1 = k then (e.1, f e.2) else e)

def Table.keys {α : Type} (m : Table α) : List Nat :=
  m.map Prod.fst

/-! ## State of `runWebsocket` -/

/-- The modulus of `uint64_t` arithmetic. -/
def U64 : Nat := 2 ^ 64

structure Stats where
  bytesUp : Nat
  bytesUpCompressed : Nat
  bytesDown : Nat
  bytesDownCompressed : Nat
deriving DecidableEq

structure Connection where
  websocket : Nat
  connId : Nat
  connectedTimestamp : Nat
  ipAddr : Bytes
  stats : Stats
deriving DecidableEq

inductive OpCode where
  | TEXT
  | BINARY
deriving DecidableEq

/-- An entry of the `list` of a `SendEventToBatch` message. -/
structure Recipient where
  connId : Nat
  subId : Bytes
deriving DecidableEq

inductive MsgWebsocket where
  | Send (connId : Nat) (payload : Bytes)
  | SendBinary (connId : Nat) (payload : Bytes)
  | SendEventToBatch (evJson : Bytes) (list : List Recipient)
deriving DecidableEq

inductive MsgIngester where
  | ClientMessage (connId : Nat) (ipAddr : Bytes) (payload : Bytes)
  | CloseConn (connId : Nat)
deriving DecidableEq

/-- A call `websocket->send(payload.data(), payload.size(), opCode, ...)`. -/
structure SentFrame where
  websocket : Nat
  payload : Bytes
  opCode : OpCode
deriving DecidableEq

/-- What the handlers take from outside the file: the constant
`MAX_SUBID_SIZE`, the setting `relay__realIpHeader`, the helper `parseIP`, and
the compressed size that the transport reports for a send, which may depend on
the frames sent before. -/
structure Env where
  MAX_SUBID_SIZE : Nat
  relay__realIpHeader : Bytes
  parseIP : Bytes → Bytes
  compressedSize : List SentFrame → Nat → Bytes → OpCode → Nat

structure State where
  connIdToConnection : Table Nat
  nextConnectionId : Nat
  tempBuf : TempBuf
  conns : Table Connection
  sent : List SentFrame
  ingester : List MsgIngester

/-- The locals of `runWebsocket` before the loop runs (lines 42-46). -/
def State.init (mem : Mem) : State :=
  { connIdToConnection := []
    nextConnectionId := 1
    tempBuf := { mem := mem, size := 0 }
    conns := []
    sent := []
    ingester := [] }

/-! ## Socket handlers (lines 93-149) -/

/-- The `onConnection` handler for socket `ws`; `now` is `curr_time_us()`,
`header` the value of the request header named by `relay__realIpHeader`, and
`addressBytes` the peer address of the socket. The log lines and the
keep-alive socket option leave the state alone and are not embedded. -/
def onConnection (env : Env) (st : State) (ws now : Nat) (header addressBytes : Bytes) : State :=
  let connId := st.nextConnectionId
  let st := { st with nextConnectionId := (st.nextConnectionId + 1) % U64 }
  let c : Connection :=
    { websocket := ws, connId := connId, connectedTimestamp := now, ipAddr := [],
      stats := { bytesUp := 0, bytesUpCompressed := 0, bytesDown := 0, bytesDownCompressed := 0 } }
  let c := if env.relay__realIpHeader.length ≠ 0 then { c with ipAddr := env.parseIP header } else c
  let c := if c.ipAddr.length = 0 then { c with ipAddr := addressBytes } else c
  { st with
    conns := st.conns.put ws c
    connIdToConnection := st.connIdToConnection.emplace connId ws }

/-- The `onDisconnection` handler for socket `ws`. A socket without a
`Connection` behind its user data is never passed by the transport; the state
is left as it is there. The log line is not embedded; the two ratios it prints
are `disconnectRatios`. -/
def onDisconnection (st : State) (ws : Nat) : State :=
  match st.conns.find ws with
  | none => st
  | some c =>
    let connId := c.connId
    { st with
      ingester := st.ingester ++ [MsgIngester.CloseConn connId]
      connIdToConnection := st.connIdToConnection.erase connId
      conns := st.conns.erase ws }

/-- The two arguments handed to `renderPercent` by the disconnect handler for
the connection `c`. -/
def disconnectRatios (rnd : ℚ → ℚ) (c : Connection) : F64 × F64 :=
  (compressionRatio rnd c.stats.bytesUpCompressed c.stats.bytesUp,
   compressionRatio rnd c.stats.bytesDownCompressed c.stats.bytesDown)

/-- The `onMessage2` handler for a frame `message` of wire size
`compressedSize` received on socket `ws`. -/
def onMessage2 (st : State) (ws : Nat) (message : Bytes) (compressedSize : Nat) : State :=
  match st.conns.find ws with
  | none => st
  | some c =>
    { st with
      conns := st.conns.modify ws (fun c =>
        { c with stats := { c.stats with
            bytesDown := (c.stats.bytesDown + message.length) % U64
            bytesDownCompressed := (c.stats.bytesDownCompressed + compressedSize) % U64 } })
      ingester := st.ingester ++ [MsgIngester.ClientMessage c.connId c.ipAddr message] }

/-! ## Outbound dispatcher `asyncCb` (lines 152-188) -/

/-- The lambda `doSend`. The registry never holds a pointer without an object
behind it; the state is left as it is there. -/
def doSend (env : Env) (st : State) (connId : Nat) (payload : Bytes) (opCode : OpCode) : State :=
  match st.connIdToConnection.find connId with
  | none => st
  | some p =>
    match st.conns.find p with
    | none => st
    | some c =>
      let compressedSize := env.compressedSize st.sent c.websocket payload opCode
      { st with
        sent := st.sent ++ [{ websocket := c.websocket, payload := payload, opCode := opCode }]
        conns := st.conns.modify p (fun c =>
          { c with stats := { c.stats with
              bytesUp := (c.stats.bytesUp + payload.length) % U64
              bytesUpCompressed := (c.stats.bytesUpCompressed + compressedSize) % U64 } }) }

/-- Lines 173-177: the buffer is cut to `10 + MAX_SUBID_SIZE` bytes and the
shared suffix is appended. -/
def prepareTempBuf (env : Env) (tb : TempBuf) (evJson : Bytes) : TempBuf :=
  let tb := tb.resize (10 + env.MAX_SUBID_SIZE)
  let tb := tb.append (ascii "\",")
  let tb := tb.append evJson
  let tb := tb.append (ascii "]")
  tb

/-- The pointer `p` of line 181, as an offset from `tempBuf.data()`. -/
def envelopeStart (env : Env) (subIdSv : Bytes) : Int :=
  (env.MAX_SUBID_SIZE : Int) - (subIdSv.length : Int)

/-- The two `memcpy` calls of lines 182-183, as stores into the flat memory.
The flat memory gives a store a meaning at every address; the source defines
it only inside the storage of the string, which is what
`sendEventToBatchItemChecked` tracks. -/
def writeEnvelope (env : Env) (tb : TempBuf) (subIdSv : Bytes) : TempBuf :=
  let p := envelopeStart env subIdSv
  let mem := memcpy tb.mem p (ascii "[\"EVENT\",\"")
  let mem := memcpy mem (p + 10) subIdSv
  { tb with mem := mem }

/-- The `string_view` handed to `doSend` at line 184 once the envelope of
`subIdSv` has been written into `tb`. -/
def batchPayload (env : Env) (tb : TempBuf) (subIdSv evJson : Bytes) : Bytes :=
  readBytes (writeEnvelope env tb subIdSv).mem (envelopeStart env subIdSv)
    (13 + subIdSv.length + evJson.length)

/-- The body of the loop over `msg->list` (lines 180-184). -/
def sendEventToBatchItem (env : Env) (evJson : Bytes) (st : State) (item : Recipient) : State :=
  let subIdSv := item.subId
  doSend env { st with tempBuf := writeEnvelope env st.tempBuf subIdSv } item.connId
    (batchPayload env st.tempBuf subIdSv evJson) OpCode.TEXT

/-- The body of the loop over `newMsgs` (lines 168-186). -/
def handleMsg (env : Env) (st : State) : MsgWebsocket → State
  | MsgWebsocket.Send connId payload => doSend env st connId payload OpCode.TEXT
  | MsgWebsocket.SendBinary connId payload => doSend env st connId payload OpCode.BINARY
  | MsgWebsocket.SendEventToBatch evJson list =>
    list.foldl (sendEventToBatchItem env evJson)
      { st with tempBuf := prepareTempBuf env st.tempBuf evJson }

/-- The callback `asyncCb` on the drained inbox `newMsgs`. -/
def asyncCb (env : Env) (st : State) (newMsgs : List MsgWebsocket) : State :=
  newMsgs.foldl (handleMsg env) st

/-! ## The batch loop with tracked accesses -/

/-- What the event loop can deliver to the handlers. -/
inductive LoopEvent where
  | connection (ws now : Nat) (header addressBytes : Bytes)
  | disconnection (ws : Nat)
  | message (ws : Nat) (message : Bytes) (compressedSize : Nat)
  | async (newMsgs : List MsgWebsocket)

def step (env : Env) (st : State) : LoopEvent → State
  | LoopEvent.connection ws now header addressBytes => onConnection env st ws now header addressBytes
  | LoopEvent.disconnection ws => onDisconnection st ws
  | LoopEvent.message ws message compressedSize => onMessage2 st ws message compressedSize
  | LoopEvent.async newMsgs => asyncCb env st newMsgs

def run (env : Env) (st : State) (events : List LoopEvent) : State :=
  events.foldl (step env) st

/-! ## Notions used by the statements -/

/-- The shared suffix is in place behind the reserved region of the buffer. -/
def SuffixInPlace (env : Env) (evJson : Bytes) (tb : TempBuf) : Prop :=
  readBytes tb.mem ((env.MAX_SUBID_SIZE : Int) + 10) (2 + (evJson.length + 1)) =
      ascii "\"," ++ (evJson ++ ascii "]")
    ∧ tb.size = 13 + env.MAX_SUBID_SIZE + evJson.length

/-- The socket that a send to `connId` goes to, if any. -/
def socketOf (st : State) (connId : Nat) : Option Nat :=
  match st.connIdToConnection.find connId with
  | none => none
  | some p => (st.conns.find p).map (fun c => c.websocket)

/-- The frame `["EVENT","<subId>",<evJson>]`. -/
def eventFrame (subId evJson : Bytes) : Bytes :=
  ascii "[\"EVENT\",\"" ++ subId ++ ascii "\"," ++ evJson ++ ascii "]"

/-- The identity of the `Connection` owned by socket `ws`: its `connId` and its
`websocket`. -/
def identOf (st : State) (ws : Nat) : Option (Nat × Nat) :=
  (st.conns.find ws).map (fun c => (c.connId, c.websocket))

/-- Every entry of the registry points to a live `Connection` that carries the
key as its `connId` and is owned by the socket the pointer stands for. -/
def RegistryLive (st : State) : Prop :=
  ∀ id p, st.connIdToConnection.find id = some p → identOf st p = some (id, p)

/-- The sockets open after `events`, starting from the open sockets `opened`. -/
def openAfter (opened : List Nat) : List LoopEvent → List Nat
  | [] => opened
  | LoopEvent.connection ws _ _ _ :: rest => openAfter (ws :: opened) rest
  | LoopEvent.disconnection ws :: rest => openAfter (opened.filter (fun w => w ≠ ws)) rest
  | LoopEvent.message _ _ _ :: rest => openAfter opened rest
  | LoopEvent.async _ :: rest => openAfter opened rest

/-- The transport connects only sockets that are not open and disconnects only
sockets that are open. -/
def wellFormedFrom (opened : List Nat) : List LoopEvent → Bool
  | [] => true
  | LoopEvent.connection ws _ _ _ :: rest =>
    !opened.contains ws && wellFormedFrom (ws :: opened) rest
  | LoopEvent.disconnection ws :: rest =>
    opened.contains ws && wellFormedFrom (opened.filter (fun w => w ≠ ws)) rest
  | LoopEvent.message _ _ _ :: rest => wellFormedFrom opened rest
  | LoopEvent.async _ :: rest => wellFormedFrom opened rest

/-- The number of `onConnection` events. -/
def connectionCount : List LoopEvent → Nat
  | [] => 0
  | LoopEvent.connection _ _ _ _ :: rest => connectionCount rest + 1
  | _ :: rest => connectionCount rest

/-- The invariant of the loop after `n` connections, with `opened` the open
sockets. -/
structure LoopInv (st : State) (opened : List Nat) (n : Nat) : Prop where
  live : ∀ ws, (∃ x, identOf st ws = some x) ↔ ws ∈ opened
  registry : RegistryLive st
  registered : ∀ ws id w, identOf st ws = some (id, w) → st.connIdToConnection.find id = some ws
  assigned : ∀ ws id w, identOf st ws = some (id, w) → ∃ k, 1 ≤ k ∧ k ≤ n ∧ id = k % U64
  next : st.nextConnectionId = (n + 1) % U64

/-- Two states with the same registry, the same id counter and the same
connection identities behind every socket. -/
def SameShape (st st1 : State) : Prop :=
  st1.connIdToConnection = st.connIdToConnection
    ∧ st1.nextConnectionId = st.nextConnectionId
    ∧ ∀ ws, identOf st1 ws = identOf st ws

/-- A concrete environment for the examples. -/
def demoEnv : Env :=
  { MAX_SUBID_SIZE := 3
    relay__realIpHeader := []
    parseIP := fun b => b
    compressedSize := fun _ _ payload _ => payload.length }

/-- The events `round` repeated `k` times. -/
def repeatEvents : Nat → List LoopEvent → List LoopEvent
  | 0, _ => []
  | k + 1, round => round ++ repeatEvents k round

/-- Socket 1 connects and disconnects. -/
def connectDisconnect : List LoopEvent :=
  [LoopEvent.connection 1 0 [] [], LoopEvent.disconnection 1]

/-- Socket 0 connects and stays; then socket 1 connects and disconnects
`2 ^ 64 - 1` times, and once more. -/
def wrapEvents : List LoopEvent :=
  LoopEvent.connection 0 0 [] [] ::
    (repeatEvents (2 ^ 64 - 1) connectDisconnect ++ connectDisconnect)

/-- The total size of the payloads that the message `msg` makes `doSend`
receive for connection id `connId`. -/
def payloadBytesFor (connId : Nat) : MsgWebsocket → Nat
  | MsgWebsocket.Send id payload => if id = connId then payload.length else 0
  | MsgWebsocket.SendBinary id payload => if id = connId then payload.length else 0
  | MsgWebsocket.SendEventToBatch evJson list =>
    ((list.filter (fun item => item.connId = connId)).map
      (fun item => 13 + item.subId.length + evJson.length)).sum

/-- The total size of the payloads passed to `doSend` for `connId` over
`events`. -/
def bytesSentTo (connId : Nat) : List LoopEvent → Nat
  | [] => 0
  | LoopEvent.async newMsgs :: rest =>
    (newMsgs.map (payloadBytesFor connId)).sum + bytesSentTo connId rest
  | _ :: rest => bytesSentTo connId rest

/-- The total length of the frames received on socket `ws` over `events`. -/
def bytesReceivedOn (ws : Nat) : List LoopEvent → Nat
  | [] => 0
  | LoopEvent.message ws1 message _ :: rest =>
    (if ws1 = ws then message.length else 0) + bytesReceivedOn ws rest
  | _ :: rest => bytesReceivedOn ws rest

/-- Sends and receives, as opposed to connects and disconnects. -/
def isTraffic : LoopEvent → Bool
  | LoopEvent.message _ _ _ => true
  | LoopEvent.async _ => true
  | _ => false

/-- The counters `bytesUp` and `bytesDown` of the connection owned by `p`. -/
def upDown (st : State) (p : Nat) : Option (Nat × Nat) :=
  (st.conns.find p).map (fun c => (c.stats.bytesUp, c.stats.bytesDown))

/-- The state after socket 5 has connected: it is registered under id 1. -/
def demoState : State :=
  run demoEnv (State.init (fun _ => 0)) [LoopEvent.connection 5 0 [] []]

/-- A configuration whose version counter is 0. -/
def configZero : Config :=
  { version := 0, relay__info__name := ascii "relay", relay__info__description := [],
    relay__info__pubkey := [], relay__info__contact := [] }

/-- A serialiser for the examples; it renders every document as `null`. -/
def demoJsonToString : JsonValue → Bytes :=
  fun _ => ascii "null"

/-- The `Connection` created for socket 5 in `demoState`. -/
def demoConnection : Connection :=
  { websocket := 5, connId := 1, connectedTimestamp := 0, ipAddr := [],
    stats := { bytesUp := 0, bytesUpCompressed := 0, bytesDown := 0, bytesDownCompressed := 0 } }

/-- Two drained messages for connection id 1, then a frame received on socket 5. -/
def demoTraffic : List LoopEvent :=
  [LoopEvent.async [MsgWebsocket.Send 1 (ascii "abc"),
      MsgWebsocket.SendEventToBatch (ascii "E") [⟨1, ascii "ab"⟩, ⟨2, ascii "x"⟩]],
   LoopEvent.message 5 (ascii "xy") 2]

/-- Sockets 5 and 6 connect, then socket 5 disconnects. -/
def demoLifecycle : List LoopEvent :=
  [LoopEvent.connection 5 0 [] [], LoopEvent.connection 6 0 [] [], LoopEvent.disconnection 5]

/-- A configuration whose version counter is 1. -/
def configOne : Config :=
  { version := 1, relay__info__name := ascii "relay", relay__info__description := [],
    relay__info__pubkey := [], relay__info__contact := [] }

theorem toNat_digit (d : Nat) (h : d < 10) : (UInt8.ofNat (48 + d)).toNat - 48 = d := by
  have : (UInt8.ofNat (48 + d)).toNat = (48 + d) % 256 := rfl
  rw [this]
  omega

theorem parse_toDecimal (fuel : Nat) :
    ∀ (n : Nat) (acc : Bytes), n < fuel →
      (toDecimal fuel n acc).foldl (fun a b => a * 10 + (b.toNat - 48)) 0 =
        acc.foldl (fun a b => a * 10 + (b.toNat - 48)) n := by
  induction fuel with
  | zero => intro n acc h; omega
  | succ f ih =>
    intro n acc h
    have hd : (UInt8.ofNat (48 + n % 10)).toNat - 48 = n % 10 :=
      toNat_digit (n % 10) (Nat.mod_lt _ (by decide))
    by_cases h0 : n / 10 = 0
    · simp only [toDecimal, h0, if_true, List.foldl_cons, hd]
      have : 0 * 10 + n % 10 = n := by omega
      rw [this]
    · simp only [toDecimal, h0, if_false]
      rw [ih (n / 10) _ (by omega)]
      simp only [List.foldl_cons, hd]
      have : n / 10 * 10 + n % 10 = n := by omega
      rw [this]

theorem parseDecimal_to_string (n : Nat) : parseDecimal (to_string n) = n := by
  unfold parseDecimal to_string
  rw [parse_toDecimal (n + 1) n [] (Nat.lt_succ_self n)]
  rfl

theorem drop_length_sub_append {α : Type} (a c : List α) :
    (a ++ c).drop ((a ++ c).length - c.length) = c := by
  simp [List.length_append]

/-! ### Flat memory -/

theorem memcpy_outside (src : Bytes) :
    ∀ (m : Mem) (dst x : Int), (x < dst ∨ dst + (src.length : Int) ≤ x) → memcpy m dst src x = m x := by
  induction src with
  | nil => intro m dst x _; rfl
  | cons b bs ih =>
    intro m dst x h
    simp only [memcpy]
    rw [ih (poke m dst b) (dst + 1) x (by simp only [List.length_cons, Nat.cast_succ] at h; omega)]
    simp only [poke]
    rw [if_neg]
    simp only [List.length_cons, Nat.cast_succ] at h
    omega

theorem readBytes_congr (n : Nat) :
    ∀ (m1 m2 : Mem) (p : Int), (∀ x, p ≤ x → x < p + (n : Int) → m1 x = m2 x) →
      readBytes m1 p n = readBytes m2 p n := by
  induction n with
  | zero => intro m1 m2 p _; rfl
  | succ k ih =>
    intro m1 m2 p h
    simp only [readBytes]
    rw [h p (le_refl p) (by push_cast; omega)]
    rw [ih m1 m2 (p + 1) (fun x h1 h2 => h x (by omega) (by push_cast; omega))]

theorem readBytes_add (a : Nat) :
    ∀ (m : Mem) (p : Int) (b : Nat),
      readBytes m p (a + b) = readBytes m p a ++ readBytes m (p + (a : Int)) b := by
  induction a with
  | zero => intro m p b; simp [readBytes]
  | succ k ih =>
    intro m p b
    have : k + 1 + b = (k + b) + 1 := by omega
    rw [this]
    simp only [readBytes, List.cons_append]
    rw [ih m (p + 1) b]
    have : p + 1 + (k : Int) = p + ((k + 1 : Nat) : Int) := by push_cast; omega
    rw [this]

theorem readBytes_length (n : Nat) : ∀ (m : Mem) (p : Int), (readBytes m p n).length = n := by
  induction n with
  | zero => intro m p; rfl
  | succ k ih => intro m p; simp [readBytes, ih]

theorem readBytes_memcpy_self (src : Bytes) :
    ∀ (m : Mem) (dst : Int), readBytes (memcpy m dst src) dst src.length = src := by
  induction src with
  | nil => intro m dst; rfl
  | cons b bs ih =>
    intro m dst
    simp only [memcpy, List.length_cons, readBytes]
    rw [ih (poke m dst b) (dst + 1)]
    rw [memcpy_outside bs (poke m dst b) (dst + 1) dst (by omega)]
    simp [poke]

theorem readBytes_memcpy_outside (src : Bytes) (m : Mem) (dst p : Int) (n : Nat)
    (h : p + (n : Int) ≤ dst ∨ dst + (src.length : Int) ≤ p) :
    readBytes (memcpy m dst src) p n = readBytes m p n := by
  apply readBytes_congr
  intro x h1 h2
  exact memcpy_outside src m dst x (by omega)

/-! ### The scratch buffer -/

theorem resize_size (tb : TempBuf) (n : Nat) : (tb.resize n).size = n := by
  unfold TempBuf.resize
  split <;> rfl

theorem ascii_lengths : (ascii "\",").length = 2 ∧ (ascii "]").length = 1 ∧
    (ascii "[\"EVENT\",\"").length = 10 := by decide

theorem prepareTempBuf_suffix (env : Env) (tb : TempBuf) (evJson : Bytes) :
    SuffixInPlace env evJson (prepareTempBuf env tb evJson) := by
  obtain ⟨h2, h1, _⟩ := ascii_lengths
  constructor
  · simp only [prepareTempBuf, TempBuf.append, resize_size]
    rw [readBytes_add 2, readBytes_add evJson.length]
    congr 1
    · rw [readBytes_memcpy_outside _ _ _ _ _ (by simp only [h2]; push_cast; omega)]
      rw [readBytes_memcpy_outside _ _ _ _ _ (by simp only [h2]; push_cast; omega)]
      have e : ((env.MAX_SUBID_SIZE : Int) + 10) = ((10 + env.MAX_SUBID_SIZE : Nat) : Int) := by
        push_cast; omega
      rw [e]
      have := readBytes_memcpy_self (ascii "\",") (tb.resize (10 + env.MAX_SUBID_SIZE)).mem
        ((10 + env.MAX_SUBID_SIZE : Nat) : Int)
      rw [h2] at this
      exact this
    · congr 1
      · rw [readBytes_memcpy_outside _ _ _ _ _ (by simp only [h2]; push_cast; omega)]
        have e : ((env.MAX_SUBID_SIZE : Int) + 10 + ((2 : Nat) : Int)) =
            ((10 + env.MAX_SUBID_SIZE + (ascii "\",").length : Nat) : Int) := by
          simp only [h2]; push_cast; omega
        rw [e]
        exact readBytes_memcpy_self evJson _ _
      · have e : ((env.MAX_SUBID_SIZE : Int) + 10 + ((2 : Nat) : Int) + (evJson.length : Int)) =
            ((10 + env.MAX_SUBID_SIZE + (ascii "\",").length + evJson.length : Nat) : Int) := by
          simp only [h2]; push_cast; omega
        rw [e]
        have := readBytes_memcpy_self (ascii "]")
          (memcpy (memcpy (tb.resize (10 + env.MAX_SUBID_SIZE)).mem
            ((10 + env.MAX_SUBID_SIZE : Nat) : Int) (ascii "\","))
            ((10 + env.MAX_SUBID_SIZE + (ascii "\",").length : Nat) : Int) evJson)
          ((10 + env.MAX_SUBID_SIZE + (ascii "\",").length + evJson.length : Nat) : Int)
        rw [h1] at this
        exact this
  · simp only [prepareTempBuf, TempBuf.append, resize_size, h2, h1]
    omega

theorem writeEnvelope_suffix (env : Env) (evJson : Bytes) (tb : TempBuf) (subId : Bytes)
    (h : SuffixInPlace env evJson tb) : SuffixInPlace env evJson (writeEnvelope env tb subId) := by
  obtain ⟨_, _, h10⟩ := ascii_lengths
  obtain ⟨hs, hsz⟩ := h
  refine ⟨?_, hsz⟩
  simp only [writeEnvelope, envelopeStart]
  rw [readBytes_memcpy_outside _ _ _ _ _ (by omega)]
  rw [readBytes_memcpy_outside _ _ _ _ _ (by simp only [h10]; push_cast; omega)]
  exact hs

theorem batchPayload_eq (env : Env) (evJson : Bytes) (tb : TempBuf) (subId : Bytes)
    (h : SuffixInPlace env evJson tb) :
    batchPayload env tb subId evJson =
      ascii "[\"EVENT\",\"" ++ subId ++ ascii "\"," ++ evJson ++ ascii "]" := by
  obtain ⟨_, _, h10⟩ := ascii_lengths
  have hs := (writeEnvelope_suffix env evJson tb subId h).1
  unfold batchPayload
  have e : 13 + subId.length + evJson.length = 10 + (subId.length + (2 + (evJson.length + 1))) := by
    omega
  rw [e, readBytes_add 10, readBytes_add subId.length]
  have e2 : envelopeStart env subId + ((10 : Nat) : Int) + (subId.length : Int) =
      (env.MAX_SUBID_SIZE : Int) + 10 := by
    simp only [envelopeStart]; push_cast; omega
  rw [e2, hs]
  simp only [List.append_assoc]
  congr 1
  · simp only [writeEnvelope]
    rw [readBytes_memcpy_outside _ _ _ _ _ (by omega)]
    have := readBytes_memcpy_self (ascii "[\"EVENT\",\"") tb.mem (envelopeStart env subId)
    rw [h10] at this
    exact this
  · congr 1
    simp only [writeEnvelope]
    exact readBytes_memcpy_self subId _ _

/-! ### Finite maps -/

theorem find_modify {α : Type} (m : Table α) (k : Nat) (f : α → α) (k1 : Nat) :
    (m.modify k f).find k1 = if k1 = k then (m.find k1).map f else m.find k1 := by
  induction m with
  | nil => simp [Table.modify, Table.find]
  | cons e rest ih =>
    obtain ⟨a, v⟩ := e
    have hm : Table.modify ((a, v) :: rest) k f =
        (if a = k then (a, f v) else (a, v)) :: Table.modify rest k f := rfl
    rw [hm]
    by_cases h1 : a = k
    · rw [if_pos h1]
      simp only [Table.find]
      by_cases h2 : a = k1
      · have h3 : k1 = k := by omega
        simp only [h2, h3, if_true, Option.map_some']
      · simp only [h2, if_false, ih]
    · rw [if_neg h1]
      simp only [Table.find]
      by_cases h2 : a = k1
      · have h3 : ¬ k1 = k := by omega
        simp only [h2, h3, if_true, if_false]
      · simp only [h2, if_false, ih]

theorem find_erase {α : Type} (m : Table α) (k k1 : Nat) :
    (m.erase k).find k1 = if k1 = k then none else m.find k1 := by
  induction m with
  | nil => simp [Table.erase, Table.find]
  | cons e rest ih =>
    obtain ⟨a, v⟩ := e
    by_cases h1 : a = k
    · simp only [Table.erase, h1, if_true, ih, Table.find]
      by_cases h3 : k1 = k
      · simp [h3]
      · rw [if_neg h3, if_neg h3, if_neg (by omega)]
    · simp only [Table.erase, h1, if_false, Table.find, ih]
      by_cases h2 : a = k1
      · simp only [h2, if_true]
        rw [if_neg (by omega)]
      · simp only [h2, if_false]

theorem find_put {α : Type} (m : Table α) (k : Nat) (v : α) (k1 : Nat) :
    (m.put k v).find k1 = if k1 = k then some v else m.find k1 := by
  simp only [Table.put, Table.find, find_erase]
  by_cases h : k = k1
  · simp [h]
  · rw [if_neg h, if_neg (by omega), if_neg (by omega)]

theorem find_emplace {α : Type} (m : Table α) (k : Nat) (v : α) (k1 : Nat) :
    (m.emplace k v).find k1 =
      if k1 = k then (match m.find k with | some w => some w | none => some v) else m.find k1 := by
  unfold Table.emplace
  cases h : m.find k with
  | some w =>
    by_cases h1 : k1 = k
    · simp [h1, h]
    · simp [h1]
  | none =>
    by_cases h1 : k1 = k
    · simp [h1, Table.find]
    · simp only [Table.find, h1, if_false]
      rw [if_neg (by omega)]

theorem mem_keys_iff {α : Type} (m : Table α) (k : Nat) :
    k ∈ m.keys ↔ ∃ v, m.find k = some v := by
  induction m with
  | nil => simp [Table.keys, Table.find]
  | cons e rest ih =>
    obtain ⟨a, v⟩ := e
    simp only [Table.keys, List.map_cons, List.mem_cons, Table.find] at ih ⊢
    by_cases h : a = k
    · simp [h]
    · simp only [h, if_false]
      rw [← ih]
      constructor
      · rintro (h1 | h1)
        · exact absurd h1.symm h
        · exact h1
      · intro h1; exact Or.inr h1

/-! ### `doSend` -/

theorem doSend_tempBuf (env : Env) (st : State) (connId : Nat) (payload : Bytes) (op : OpCode) :
    (doSend env st connId payload op).tempBuf = st.tempBuf := by
  unfold doSend
  split
  · rfl
  · split <;> rfl

theorem doSend_registry (env : Env) (st : State) (connId : Nat) (payload : Bytes) (op : OpCode) :
    (doSend env st connId payload op).connIdToConnection = st.connIdToConnection
      ∧ (doSend env st connId payload op).nextConnectionId = st.nextConnectionId := by
  unfold doSend
  split
  · exact ⟨rfl, rfl⟩
  · split <;> exact ⟨rfl, rfl⟩

theorem doSend_unknown (env : Env) (st : State) (connId : Nat) (payload : Bytes) (op : OpCode)
    (h : st.connIdToConnection.find connId = none) : doSend env st connId payload op = st := by
  unfold doSend
  rw [h]

theorem doSend_sent (env : Env) (st : State) (connId : Nat) (payload : Bytes) (op : OpCode) :
    (doSend env st connId payload op).sent =
      st.sent ++ ((socketOf st connId).map
        (fun ws => ({ websocket := ws, payload := payload, opCode := op } : SentFrame))).toList := by
  unfold doSend socketOf
  split
  · next hp => simp [hp]
  · next p hp =>
    split
    · next hc => simp [hp, hc]
    · next c hc => simp [hp, hc]

theorem doSend_find_conns (env : Env) (st : State) (connId : Nat) (payload : Bytes) (op : OpCode)
    (ws : Nat) :
    ((doSend env st connId payload op).conns.find ws).map (fun c => (c.connId, c.websocket)) =
      (st.conns.find ws).map (fun c => (c.connId, c.websocket)) := by
  unfold doSend
  split
  · rfl
  · next p hp =>
    split
    · rfl
    · next c hc =>
      simp only [find_modify]
      by_cases h : ws = p
      · subst h; simp only [if_true, hc, Option.map_some']
      · simp only [h, if_false]

theorem doSend_socketOf (env : Env) (st : State) (connId : Nat) (payload : Bytes) (op : OpCode)
    (id : Nat) : socketOf (doSend env st connId payload op) id = socketOf st id := by
  unfold socketOf
  rw [(doSend_registry env st connId payload op).1]
  cases st.connIdToConnection.find id with
  | none => rfl
  | some p =>
    have := doSend_find_conns env st connId payload op p
    simp only
    cases h1 : (doSend env st connId payload op).conns.find p with
    | none =>
      cases h2 : st.conns.find p with
      | none => rfl
      | some c => rw [h1, h2] at this; simp at this
    | some c1 =>
      cases h2 : st.conns.find p with
      | none => rw [h1, h2] at this; simp at this
      | some c => rw [h1, h2] at this; simp at this; simp [this.2]

/-! ### The batch loop -/

theorem batch_loop (env : Env) (evJson : Bytes) (list : List Recipient) :
    ∀ st : State, SuffixInPlace env evJson st.tempBuf →
      (list.foldl (sendEventToBatchItem env evJson) st).sent =
          st.sent ++ list.filterMap (fun item => (socketOf st item.connId).map
            (fun ws => ({ websocket := ws, payload := eventFrame item.subId evJson,
                          opCode := OpCode.TEXT } : SentFrame)))
        ∧ SuffixInPlace env evJson (list.foldl (sendEventToBatchItem env evJson) st).tempBuf
        ∧ (∀ id, socketOf (list.foldl (sendEventToBatchItem env evJson) st) id = socketOf st id) := by
  induction list with
  | nil => intro st h; simp [h]
  | cons item rest ih =>
    intro st h
    have hsuf : SuffixInPlace env evJson (sendEventToBatchItem env evJson st item).tempBuf := by
      unfold sendEventToBatchItem
      rw [doSend_tempBuf]
      exact writeEnvelope_suffix env evJson st.tempBuf item.subId h
    have hsock : ∀ id, socketOf (sendEventToBatchItem env evJson st item) id = socketOf st id := by
      intro id
      unfold sendEventToBatchItem
      rw [doSend_socketOf]
      rfl
    have hsent : (sendEventToBatchItem env evJson st item).sent =
        st.sent ++ ((socketOf st item.connId).map
          (fun ws => ({ websocket := ws, payload := eventFrame item.subId evJson,
                        opCode := OpCode.TEXT } : SentFrame))).toList := by
      unfold sendEventToBatchItem
      rw [doSend_sent, batchPayload_eq env evJson st.tempBuf item.subId h]
      rfl
    obtain ⟨i1, i2, i3⟩ := ih (sendEventToBatchItem env evJson st item) hsuf
    simp only [List.foldl_cons]
    refine ⟨?_, i2, fun id => by rw [i3 id, hsock id]⟩
    rw [i1, hsent]
    simp only [hsock, List.filterMap_cons, List.append_assoc]
    cases socketOf st item.connId <;> simp

theorem identOf_eq_some (st : State) (ws id w : Nat) :
    identOf st ws = some (id, w) ↔
      ∃ c, st.conns.find ws = some c ∧ c.connId = id ∧ c.websocket = w := by
  unfold identOf
  cases st.conns.find ws with
  | none => simp
  | some c => simp

theorem socketOf_of_live (st : State) (h : RegistryLive st) (id : Nat) :
    socketOf st id = st.connIdToConnection.find id := by
  unfold socketOf
  cases hf : st.connIdToConnection.find id with
  | none => rfl
  | some p =>
    obtain ⟨c, hc, _, hw⟩ := (identOf_eq_some st p id p).1 (h id p hf)
    simp [hc, hw]

theorem split_at_index {α : Type} (l : List α) :
    ∀ (i : Nat) (x : α), l[i]? = some x → l = l.take i ++ x :: l.drop (i + 1) := by
  induction l with
  | nil => intro i x h; simp at h
  | cons a rest ih =>
    intro i x h
    cases i with
    | zero => simp at h; simp [h]
    | succ j =>
      simp at h
      simp only [List.take_succ_cons, List.drop_succ_cons, List.cons_append]
      rw [← ih j x h]

theorem SameShape.refl (st : State) : SameShape st st := ⟨rfl, rfl, fun _ => rfl⟩

theorem SameShape.trans {a b c : State} (h1 : SameShape a b) (h2 : SameShape b c) :
    SameShape a c :=
  ⟨h2.1.trans h1.1, h2.2.1.trans h1.2.1, fun ws => (h2.2.2 ws).trans (h1.2.2 ws)⟩

theorem doSend_shape (env : Env) (st : State) (connId : Nat) (payload : Bytes) (op : OpCode) :
    SameShape st (doSend env st connId payload op) :=
  ⟨(doSend_registry env st connId payload op).1, (doSend_registry env st connId payload op).2,
    fun ws => doSend_find_conns env st connId payload op ws⟩

theorem foldl_shape {α : Type} (f : State → α → State) (hf : ∀ st x, SameShape st (f st x))
    (l : List α) : ∀ st, SameShape st (l.foldl f st) := by
  induction l with
  | nil => intro st; exact SameShape.refl st
  | cons x rest ih => intro st; exact SameShape.trans (hf st x) (ih (f st x))

theorem sendEventToBatchItem_shape (env : Env) (evJson : Bytes) (st : State) (item : Recipient) :
    SameShape st (sendEventToBatchItem env evJson st item) := by
  unfold sendEventToBatchItem
  exact SameShape.trans (b := { st with tempBuf := writeEnvelope env st.tempBuf item.subId })
    ⟨rfl, rfl, fun _ => rfl⟩ (doSend_shape env _ _ _ _)

theorem handleMsg_shape (env : Env) (st : State) (msg : MsgWebsocket) :
    SameShape st (handleMsg env st msg) := by
  cases msg with
  | Send connId payload => exact doSend_shape env st connId payload OpCode.TEXT
  | SendBinary connId payload => exact doSend_shape env st connId payload OpCode.BINARY
  | SendEventToBatch evJson list =>
    exact SameShape.trans (b := { st with tempBuf := prepareTempBuf env st.tempBuf evJson })
      ⟨rfl, rfl, fun _ => rfl⟩ (foldl_shape _ (sendEventToBatchItem_shape env evJson) list _)

theorem asyncCb_shape (env : Env) (st : State) (newMsgs : List MsgWebsocket) :
    SameShape st (asyncCb env st newMsgs) :=
  foldl_shape _ (handleMsg_shape env) newMsgs st

theorem onMessage2_shape (st : State) (ws : Nat) (message : Bytes) (compressedSize : Nat) :
    SameShape st (onMessage2 st ws message compressedSize) := by
  unfold onMessage2
  split
  · exact SameShape.refl st
  · next c hc =>
    refine ⟨rfl, rfl, fun ws1 => ?_⟩
    simp only [identOf, find_modify]
    by_cases h : ws1 = ws
    · subst h; simp only [if_true, hc, Option.map_some']
    · simp only [h, if_false]

theorem loopInv_of_shape {st st1 : State} {opened : List Nat} {n : Nat}
    (h : LoopInv st opened n) (hs : SameShape st st1) : LoopInv st1 opened n := by
  obtain ⟨hr, hn, hi⟩ := hs
  refine ⟨?_, ?_, ?_, ?_, ?_⟩
  · intro ws; rw [hi ws]; exact h.live ws
  · intro id p hf; rw [hi p]; rw [hr] at hf; exact h.registry id p hf
  · intro ws id w hx; rw [hr]; rw [hi ws] at hx; exact h.registered ws id w hx
  · intro ws id w hx; rw [hi ws] at hx; exact h.assigned ws id w hx
  · rw [hn]; exact h.next

theorem U64_eq : U64 = 18446744073709551616 := by decide

theorem onConnection_identOf (env : Env) (st : State) (ws now : Nat) (header addr : Bytes)
    (ws1 : Nat) :
    identOf (onConnection env st ws now header addr) ws1 =
      if ws1 = ws then some (st.nextConnectionId, ws) else identOf st ws1 := by
  unfold onConnection identOf
  simp only [find_put]
  by_cases h : ws1 = ws
  · simp only [h, if_true, Option.map_some']
    split <;> split <;> rfl
  · simp only [h, if_false]

theorem loopInv_onConnection (env : Env) {st : State} {opened : List Nat} {n : Nat}
    (h : LoopInv st opened n) (ws now : Nat) (header addr : Bytes)
    (hnew : ws ∉ opened) (hn : n < U64) :
    LoopInv (onConnection env st ws now header addr) (ws :: opened) (n + 1) := by
  have hid := onConnection_identOf env st ws now header addr
  have hfresh : ∀ ws1 id w, identOf st ws1 = some (id, w) → id ≠ st.nextConnectionId := by
    intro ws1 id w hx
    obtain ⟨k, hk1, hk2, hk3⟩ := h.assigned ws1 id w hx
    rw [h.next, hk3]
    rw [U64_eq] at hn ⊢
    omega
  have hnone : st.connIdToConnection.find st.nextConnectionId = none := by
    cases hf : st.connIdToConnection.find st.nextConnectionId with
    | none => rfl
    | some p => exact absurd rfl (hfresh p _ p (h.registry _ p hf))
  have hreg : ∀ id, (onConnection env st ws now header addr).connIdToConnection.find id =
      if id = st.nextConnectionId then some ws else st.connIdToConnection.find id := by
    intro id
    show (st.connIdToConnection.emplace st.nextConnectionId ws).find id = _
    rw [find_emplace, hnone]
  have hclosed : identOf st ws = none := by
    cases hx : identOf st ws with
    | none => rfl
    | some x => exact absurd ((h.live ws).1 ⟨x, hx⟩) hnew
  refine ⟨?_, ?_, ?_, ?_, ?_⟩
  · intro ws1
    rw [hid ws1]
    by_cases e : ws1 = ws
    · simp [e]
    · simp only [e, if_false, List.mem_cons, false_or]
      exact h.live ws1
  · intro id p hf
    rw [hreg id] at hf
    rw [hid p]
    by_cases e : id = st.nextConnectionId
    · rw [if_pos e] at hf
      have : p = ws := by simpa using hf.symm
      rw [if_pos this, e, this]
    · rw [if_neg e] at hf
      have hp := h.registry id p hf
      have : p ≠ ws := by
        intro e2; rw [e2, hclosed] at hp; exact absurd hp (by simp)
      rw [if_neg this]; exact hp
  · intro ws1 id w hx
    rw [hid ws1] at hx
    rw [hreg id]
    by_cases e : ws1 = ws
    · rw [if_pos e] at hx
      have : id = st.nextConnectionId := by
        have := Option.some.inj hx; exact (congrArg Prod.fst this).symm
      rw [if_pos this, e]
    · rw [if_neg e] at hx
      rw [if_neg (hfresh ws1 id w hx)]
      exact h.registered ws1 id w hx
  · intro ws1 id w hx
    rw [hid ws1] at hx
    by_cases e : ws1 = ws
    · rw [if_pos e] at hx
      have : id = st.nextConnectionId := by
        have := Option.some.inj hx; exact (congrArg Prod.fst this).symm
      exact ⟨n + 1, by omega, by omega, by rw [this, h.next]⟩
    · rw [if_neg e] at hx
      obtain ⟨k, hk1, hk2, hk3⟩ := h.assigned ws1 id w hx
      exact ⟨k, hk1, by omega, hk3⟩
  · show (st.nextConnectionId + 1) % U64 = _
    rw [h.next, U64_eq]
    omega

theorem loopInv_onDisconnection {st : State} {opened : List Nat} {n : Nat}
    (h : LoopInv st opened n) (ws : Nat) (hopen : ws ∈ opened) :
    LoopInv (onDisconnection st ws) (opened.filter (fun w => w ≠ ws)) n := by
  obtain ⟨⟨id0, w0⟩, hx0⟩ := (h.live ws).2 hopen
  obtain ⟨c, hc, hc1, hc2⟩ := (identOf_eq_some st ws id0 w0).1 hx0
  have hst : onDisconnection st ws =
      { st with
        ingester := st.ingester ++ [MsgIngester.CloseConn c.connId]
        connIdToConnection := st.connIdToConnection.erase c.connId
        conns := st.conns.erase ws } := by
    unfold onDisconnection; rw [hc]
  have hid : ∀ ws1, identOf (onDisconnection st ws) ws1 =
      if ws1 = ws then none else identOf st ws1 := by
    intro ws1
    rw [hst]
    simp only [identOf, find_erase]
    by_cases e : ws1 = ws
    · simp only [e, if_true, Option.map_none']
    · simp only [e, if_false]
  have hreg : ∀ id, (onDisconnection st ws).connIdToConnection.find id =
      if id = id0 then none else st.connIdToConnection.find id := by
    intro id
    rw [hst]
    simp only [find_erase, hc1]
  refine ⟨?_, ?_, ?_, ?_, ?_⟩
  · intro ws1
    rw [hid ws1]
    by_cases e : ws1 = ws
    · simp [e]
    · simp only [e, if_false, List.mem_filter, ne_eq, not_false_eq_true, decide_True, and_true]
      exact h.live ws1
  · intro id p hf
    rw [hreg id] at hf
    rw [hid p]
    by_cases e : id = id0
    · rw [if_pos e] at hf; exact absurd hf (by simp)
    · rw [if_neg e] at hf
      have hp := h.registry id p hf
      have : p ≠ ws := by
        intro e2
        rw [e2, hx0] at hp
        exact e (congrArg Prod.fst (Option.some.inj hp)).symm
      rw [if_neg this]; exact hp
  · intro ws1 id w hx
    rw [hid ws1] at hx
    rw [hreg id]
    by_cases e : ws1 = ws
    · rw [if_pos e] at hx; exact absurd hx (by simp)
    · rw [if_neg e] at hx
      have h1 := h.registered ws1 id w hx
      have : id ≠ id0 := by
        intro e2
        have h2 := h.registered ws id0 w0 hx0
        rw [e2, h2] at h1
        exact e (Option.some.inj h1).symm
      rw [if_neg this]; exact h1
  · intro ws1 id w hx
    rw [hid ws1] at hx
    by_cases e : ws1 = ws
    · rw [if_pos e] at hx; exact absurd hx (by simp)
    · rw [if_neg e] at hx
      exact h.assigned ws1 id w hx
  · rw [hst]; exact h.next

theorem loopInv_run (env : Env) (events : List LoopEvent) :
    ∀ (st : State) (opened : List Nat) (n : Nat), LoopInv st opened n →
      wellFormedFrom opened events = true → n + connectionCount events ≤ U64 →
      LoopInv (run env st events) (openAfter opened events) (n + connectionCount events) := by
  induction events with
  | nil => intro st opened n h _ _; exact h
  | cons e rest ih =>
    intro st opened n h hwf hc
    cases e with
    | connection ws now header addr =>
      simp only [wellFormedFrom, Bool.and_eq_true, Bool.not_eq_true'] at hwf
      simp only [connectionCount] at hc ⊢
      have hnew : ws ∉ opened := by
        intro hm
        have h1 : opened.contains ws = true := List.elem_iff.2 hm
        rw [hwf.1] at h1
        exact absurd h1 (by decide)
      have := ih _ _ _ (loopInv_onConnection env h ws now header addr hnew (by omega)) hwf.2
        (by omega)
      have e1 : n + 1 + connectionCount rest = n + (connectionCount rest + 1) := by omega
      rw [e1] at this
      exact this
    | disconnection ws =>
      simp only [wellFormedFrom, Bool.and_eq_true] at hwf
      have hopen : ws ∈ opened := List.elem_iff.1 hwf.1
      exact ih _ _ _ (loopInv_onDisconnection h ws hopen) hwf.2 hc
    | message ws message compressedSize =>
      exact ih _ _ _ (loopInv_of_shape h (onMessage2_shape st ws message compressedSize)) hwf hc
    | async newMsgs =>
      exact ih _ _ _ (loopInv_of_shape h (asyncCb_shape env st newMsgs)) hwf hc

theorem loopInv_init (mem : Mem) : LoopInv (State.init mem) [] 0 := by
  refine ⟨?_, ?_, ?_, ?_, ?_⟩
  · intro ws; simp [identOf, State.init, Table.find]
  · intro id p hf; simp [State.init, Table.find] at hf
  · intro ws id w hx; simp [identOf, State.init, Table.find] at hx
  · intro ws id w hx; simp [identOf, State.init, Table.find] at hx
  · show 1 = (0 + 1) % U64
    decide

theorem identOf_isSome (st : State) (ws : Nat) :
    (∃ x, identOf st ws = some x) ↔ ∃ c, st.conns.find ws = some c := by
  unfold identOf
  cases st.conns.find ws with
  | none => simp
  | some c => simp

theorem run_append (env : Env) (st : State) (a b : List LoopEvent) :
    run env st (a ++ b) = run env (run env st a) b := by
  simp [run, List.foldl_append]

theorem round_effect (env : Env) (st : State) (c0 : Connection)
    (hr : st.connIdToConnection = [(1, 0)]) (hc : st.conns = [(0, c0)]) :
    (run env st connectDisconnect).conns = [(0, c0)]
      ∧ (run env st connectDisconnect).nextConnectionId = (st.nextConnectionId + 1) % U64
      ∧ (run env st connectDisconnect).connIdToConnection =
          if st.nextConnectionId = 1 then [] else [(1, 0)] := by
  have hfind : ∀ c : Connection, Table.find (Table.put [(0, c0)] 1 c) 1 = some c := by
    intro c; simp [Table.put, Table.find]
  simp only [run, connectDisconnect, List.foldl_cons, List.foldl_nil, step]
  unfold onDisconnection
  simp only [onConnection, hc, hr, hfind]
  refine ⟨?_, ?_, ?_⟩
  · simp [Table.put, Table.erase]
  · trivial
  · by_cases h : st.nextConnectionId = 1
    · simp [h, Table.emplace, Table.find, Table.erase]
      split <;> split <;> rfl
    · have h2 : ¬ (1 = st.nextConnectionId) := fun e => h e.symm
      simp [h, h2, Table.emplace, Table.find, Table.erase]
      split <;> split <;> simp [h2]

theorem rounds_effect (env : Env) (c0 : Connection) (k : Nat) :
    ∀ st : State, st.connIdToConnection = [(1, 0)] → st.conns = [(0, c0)] →
      st.nextConnectionId < U64 →
      (∀ j, j < k → (st.nextConnectionId + j) % U64 ≠ 1) →
      (run env st (repeatEvents k connectDisconnect)).conns = [(0, c0)]
        ∧ (run env st (repeatEvents k connectDisconnect)).nextConnectionId =
            (st.nextConnectionId + k) % U64
        ∧ (run env st (repeatEvents k connectDisconnect)).connIdToConnection = [(1, 0)] := by
  induction k with
  | zero =>
    intro st hr hc hlt _
    refine ⟨hc, ?_, hr⟩
    show st.nextConnectionId = (st.nextConnectionId + 0) % U64
    rw [Nat.add_zero, Nat.mod_eq_of_lt hlt]
  | succ k ih =>
    intro st hr hc hlt hk
    obtain ⟨r1, r2, r3⟩ := round_effect env st c0 hr hc
    have hne : st.nextConnectionId ≠ 1 := by
      intro e
      have := hk 0 (by omega)
      rw [e] at this
      exact this (by decide)
    rw [if_neg hne] at r3
    have := ih (run env st connectDisconnect) r3 r1
      (by rw [r2]; exact Nat.mod_lt _ (by decide))
      (by
        intro j hj
        rw [r2]
        have := hk (j + 1) (by omega)
        rw [U64_eq] at this ⊢
        omega)
    simp only [repeatEvents, run_append]
    refine ⟨this.1, ?_, this.2.2⟩
    rw [this.2.1, r2, U64_eq]
    omega

theorem wellFormed_rounds (k : Nat) :
    wellFormedFrom [0] (repeatEvents k connectDisconnect) = true
      ∧ openAfter [0] (repeatEvents k connectDisconnect) = [0] := by
  induction k with
  | zero => exact ⟨rfl, rfl⟩
  | succ k ih =>
    have h1 : wellFormedFrom [0] (repeatEvents (k + 1) connectDisconnect) =
        wellFormedFrom [0] (repeatEvents k connectDisconnect) := by
      simp [repeatEvents, connectDisconnect, wellFormedFrom]
    have h2 : openAfter [0] (repeatEvents (k + 1) connectDisconnect) =
        openAfter [0] (repeatEvents k connectDisconnect) := by
      simp [repeatEvents, connectDisconnect, openAfter]
    rw [h1, h2]
    exact ih

theorem wellFormedFrom_append (a : List LoopEvent) :
    ∀ (opened : List Nat) (b : List LoopEvent),
      wellFormedFrom opened (a ++ b) =
        (wellFormedFrom opened a && wellFormedFrom (openAfter opened a) b) := by
  induction a with
  | nil => intro opened b; simp [wellFormedFrom, openAfter]
  | cons e rest ih =>
    intro opened b
    cases e <;> simp [wellFormedFrom, openAfter, ih, Bool.and_assoc]

theorem openAfter_append (a : List LoopEvent) :
    ∀ (opened : List Nat) (b : List LoopEvent),
      openAfter opened (a ++ b) = openAfter (openAfter opened a) b := by
  induction a with
  | nil => intro opened b; rfl
  | cons e rest ih =>
    intro opened b
    cases e <;> simp [openAfter, ih]

theorem run_cons (env : Env) (st : State) (e : LoopEvent) (rest : List LoopEvent) :
    run env st (e :: rest) = run env (step env st e) rest := rfl

theorem wrap_outcome (env : Env) (mem : Mem) :
    ∃ c0 : Connection, c0.connId = 1
      ∧ (run env (State.init mem) wrapEvents).conns = [(0, c0)]
      ∧ (run env (State.init mem) wrapEvents).connIdToConnection = [] := by
  have hstart : ∃ c0 : Connection, c0.connId = 1
      ∧ (onConnection env (State.init mem) 0 0 [] []).conns = [(0, c0)] := by
    unfold onConnection
    simp only [State.init, Table.put, Table.erase]
    exact ⟨_, by split <;> split <;> rfl, rfl⟩
  obtain ⟨c0, hid, hconns⟩ := hstart
  have hreg : (onConnection env (State.init mem) 0 0 [] []).connIdToConnection = [(1, 0)] := rfl
  have hnext : (onConnection env (State.init mem) 0 0 [] []).nextConnectionId = 2 := by
    show (1 + 1) % U64 = 2
    decide
  refine ⟨c0, hid, ?_⟩
  have hrun : run env (State.init mem) wrapEvents =
      run env (run env (onConnection env (State.init mem) 0 0 [] [])
        (repeatEvents (2 ^ 64 - 1) connectDisconnect)) connectDisconnect := by
    unfold wrapEvents
    rw [run_cons, run_append]
    rfl
  obtain ⟨a1, a2, a3⟩ := rounds_effect env c0 (2 ^ 64 - 1)
    (onConnection env (State.init mem) 0 0 [] []) hreg hconns
    (by rw [hnext]; decide)
    (by
      intro j hj
      rw [hnext, U64_eq]
      omega)
  obtain ⟨b1, _, b3⟩ := round_effect env _ c0 a3 a1
  rw [hrun]
  refine ⟨b1, ?_⟩
  rw [b3, if_pos]
  rw [a2, hnext, U64_eq]
  norm_num

theorem openAfter_connection (opened : List Nat) (ws now : Nat) (header addr : Bytes)
    (rest : List LoopEvent) :
    openAfter opened (LoopEvent.connection ws now header addr :: rest) =
      openAfter (ws :: opened) rest := rfl

theorem wellFormedFrom_connection (opened : List Nat) (ws now : Nat) (header addr : Bytes)
    (rest : List LoopEvent) :
    wellFormedFrom opened (LoopEvent.connection ws now header addr :: rest) =
      (!opened.contains ws && wellFormedFrom (ws :: opened) rest) := rfl

theorem add_mod_U64 (u a b : Nat) : ((u + a) % U64 + b) % U64 = (u + (a + b)) % U64 := by
  rw [U64_eq]; omega

theorem upDown_eq_some (st : State) (p u d : Nat) :
    upDown st p = some (u, d) ↔
      ∃ c, st.conns.find p = some c ∧ c.stats.bytesUp = u ∧ c.stats.bytesDown = d := by
  unfold upDown
  cases st.conns.find p with
  | none => simp
  | some c => simp

theorem doSend_upDown (env : Env) (st : State) (id : Nat) (payload : Bytes) (op : OpCode)
    (connId p u d : Nat) (hreg : ∀ i, st.connIdToConnection.find i = some p ↔ i = connId)
    (h : upDown st p = some (u, d)) (hu : u < U64) :
    upDown (doSend env st id payload op) p =
      some ((u + (if id = connId then payload.length else 0)) % U64, d) := by
  obtain ⟨c, hc, hcu, hcd⟩ := (upDown_eq_some st p u d).1 h
  have hsame : ¬ id = connId → some (u, d) =
      some ((u + (if id = connId then payload.length else 0)) % U64, d) := by
    intro hne
    rw [if_neg hne, Nat.add_zero, Nat.mod_eq_of_lt hu]
  unfold doSend
  split
  · next hf =>
    have hne : ¬ id = connId := by
      intro e; rw [e, (hreg connId).2 rfl] at hf; exact absurd hf (by simp)
    rw [h]; exact hsame hne
  · next q hq =>
    by_cases e : q = p
    · have hid : id = connId := (hreg id).1 (by rw [hq, e])
      rw [e, hc]
      simp only [upDown, find_modify, if_true, hc, Option.map_some', hid, hcu, hcd]
    · have hne : ¬ id = connId := by
        intro e2
        rw [e2, (hreg connId).2 rfl] at hq
        exact e (Option.some.inj hq).symm
      split
      · rw [h]; exact hsame hne
      · have hpq : ¬ p = q := fun e3 => e e3.symm
        simp only [upDown, find_modify, hpq, if_false]
        rw [← hsame hne, ← h]
        rfl

theorem batch_upDown (env : Env) (evJson : Bytes) (connId p : Nat) (list : List Recipient) :
    ∀ (st : State) (u d : Nat), (∀ i, st.connIdToConnection.find i = some p ↔ i = connId) →
      upDown st p = some (u, d) → u < U64 →
      upDown (list.foldl (sendEventToBatchItem env evJson) st) p =
        some ((u + ((list.filter (fun item => item.connId = connId)).map
          (fun item => 13 + item.subId.length + evJson.length)).sum) % U64, d) := by
  induction list with
  | nil =>
    intro st u d _ h hu
    simp only [List.foldl_nil, List.filter_nil, List.map_nil, List.sum_nil, Nat.add_zero,
      Nat.mod_eq_of_lt hu]
    exact h
  | cons item rest ih =>
    intro st u d hreg h hu
    have h1 : upDown (sendEventToBatchItem env evJson st item) p =
        some ((u + (if item.connId = connId then 13 + item.subId.length + evJson.length else 0))
          % U64, d) := by
      unfold sendEventToBatchItem
      have := doSend_upDown env { st with tempBuf := writeEnvelope env st.tempBuf item.subId }
        item.connId (batchPayload env st.tempBuf item.subId evJson) OpCode.TEXT connId p u d
        hreg h hu
      rw [this]
      unfold batchPayload
      rw [readBytes_length]
    have hreg1 : ∀ i, (sendEventToBatchItem env evJson st item).connIdToConnection.find i = some p
        ↔ i = connId := by
      intro i; rw [(sendEventToBatchItem_shape env evJson st item).1]; exact hreg i
    rw [List.foldl_cons, ih _ _ _ hreg1 h1 (Nat.mod_lt _ (by decide))]
    by_cases e : item.connId = connId
    · simp only [e, if_true, List.filter_cons, decide_True, List.map_cons, List.sum_cons,
        add_mod_U64]
    · simp only [e, if_false, List.filter_cons, decide_False, Nat.add_zero, Nat.mod_mod_of_dvd,
        Nat.mod_add_mod, Bool.false_eq_true]

theorem handleMsg_upDown (env : Env) (connId p : Nat) (st : State) (msg : MsgWebsocket)
    (u d : Nat) (hreg : ∀ i, st.connIdToConnection.find i = some p ↔ i = connId)
    (h : upDown st p = some (u, d)) (hu : u < U64) :
    upDown (handleMsg env st msg) p = some ((u + payloadBytesFor connId msg) % U64, d) := by
  cases msg with
  | Send id payload => exact doSend_upDown env st id payload OpCode.TEXT connId p u d hreg h hu
  | SendBinary id payload =>
    exact doSend_upDown env st id payload OpCode.BINARY connId p u d hreg h hu
  | SendEventToBatch evJson list =>
    exact batch_upDown env evJson connId p list
      { st with tempBuf := prepareTempBuf env st.tempBuf evJson } u d hreg h hu

theorem asyncCb_upDown (env : Env) (connId p : Nat) (newMsgs : List MsgWebsocket) :
    ∀ (st : State) (u d : Nat), (∀ i, st.connIdToConnection.find i = some p ↔ i = connId) →
      upDown st p = some (u, d) → u < U64 →
      upDown (asyncCb env st newMsgs) p =
        some ((u + (newMsgs.map (payloadBytesFor connId)).sum) % U64, d) := by
  induction newMsgs with
  | nil =>
    intro st u d _ h hu
    simp only [asyncCb, List.foldl_nil, List.map_nil, List.sum_nil, Nat.add_zero,
      Nat.mod_eq_of_lt hu]
    exact h
  | cons msg rest ih =>
    intro st u d hreg h hu
    have h1 := handleMsg_upDown env connId p st msg u d hreg h hu
    have hreg1 : ∀ i, (handleMsg env st msg).connIdToConnection.find i = some p ↔ i = connId := by
      intro i; rw [(handleMsg_shape env st msg).1]; exact hreg i
    have := ih (handleMsg env st msg) _ _ hreg1 h1 (Nat.mod_lt _ (by decide))
    simp only [asyncCb, List.foldl_cons, List.map_cons, List.sum_cons] at this ⊢
    rw [this, add_mod_U64]

theorem onMessage2_upDown (st : State) (ws : Nat) (message : Bytes) (compressedSize : Nat)
    (p u d : Nat) (h : upDown st p = some (u, d)) (hd : d < U64) :
    upDown (onMessage2 st ws message compressedSize) p =
      some (u, (d + (if ws = p then message.length else 0)) % U64) := by
  obtain ⟨c, hc, hcu, hcd⟩ := (upDown_eq_some st p u d).1 h
  unfold onMessage2
  by_cases e : ws = p
  · rw [e, hc]
    simp only [upDown, find_modify, if_true, hc, Option.map_some', hcu, hcd]
  · have hpq : ¬ p = ws := fun e3 => e e3.symm
    rw [if_neg e, Nat.add_zero, Nat.mod_eq_of_lt hd, ← h]
    split
    · rfl
    · simp only [upDown, find_modify, hpq, if_false]

theorem traffic_upDown (env : Env) (connId p : Nat) (events : List LoopEvent) :
    ∀ (st : State) (u d : Nat), (∀ i, st.connIdToConnection.find i = some p ↔ i = connId) →
      upDown st p = some (u, d) → u < U64 → d < U64 →
      (∀ e ∈ events, isTraffic e = true) →
      upDown (run env st events) p =
        some ((u + bytesSentTo connId events) % U64, (d + bytesReceivedOn p events) % U64) := by
  induction events with
  | nil =>
    intro st u d _ h hu hd _
    simp only [run, List.foldl_nil, bytesSentTo, bytesReceivedOn, Nat.add_zero,
      Nat.mod_eq_of_lt hu, Nat.mod_eq_of_lt hd]
    exact h
  | cons e rest ih =>
    intro st u d hreg h hu hd ht
    have htr : ∀ e1 ∈ rest, isTraffic e1 = true := fun e1 h1 => ht e1 (List.mem_cons_of_mem _ h1)
    have hte := ht e (List.mem_cons_self _ _)
    cases e with
    | connection ws now header addr => simp [isTraffic] at hte
    | disconnection ws => simp [isTraffic] at hte
    | message ws message compressedSize =>
      have h1 := onMessage2_upDown st ws message compressedSize p u d h hd
      have hreg1 : ∀ i, (onMessage2 st ws message compressedSize).connIdToConnection.find i =
          some p ↔ i = connId := by
        intro i; rw [(onMessage2_shape st ws message compressedSize).1]; exact hreg i
      have := ih _ _ _ hreg1 h1 hu (Nat.mod_lt _ (by decide)) htr
      rw [run_cons]
      simp only [step, bytesSentTo, bytesReceivedOn]
      rw [this, add_mod_U64]
    | async newMsgs =>
      have h1 := asyncCb_upDown env connId p newMsgs st u d hreg h hu
      have hreg1 : ∀ i, (asyncCb env st newMsgs).connIdToConnection.find i = some p ↔
          i = connId := by
        intro i; rw [(asyncCb_shape env st newMsgs).1]; exact hreg i
      have := ih _ _ _ hreg1 h1 (Nat.mod_lt _ (by decide)) hd htr
      rw [run_cons]
      simp only [step, bytesSentTo, bytesReceivedOn]
      rw [this, add_mod_U64]

theorem demoState_live : RegistryLive demoState :=
  (loopInv_run demoEnv [LoopEvent.connection 5 0 [] []] (State.init (fun _ => 0)) [] 0
    (loopInv_init _) rfl (by decide)).registry

theorem preGenerateHttpResponse_ne_nil (contentType content : Bytes) :
    preGenerateHttpResponse contentType content ≠ [] := by
  intro h
  have := congrArg List.length h
  simp only [preGenerateHttpResponse, List.length_append, List.length_nil] at this
  have h1 : (ascii "HTTP/1.1 200 OK\r\n").length = 17 := by decide
  omega

/-- C9: `preGenerateHttpResponse contentType content` is the status line, the
`Content-Type`, CORS, keep-alive and `Server` headers, then `Content-Length: `
with the decimal length of `content`, a blank line and `content` itself; the
declared length reads back as the exact byte length of the body, and the body
is the unchanged tail of the output. -/
theorem preGenerateHttpResponse_shape (contentType content : Bytes) :
    preGenerateHttpResponse contentType content =
        ascii "HTTP/1.1 200 OK\r\n" ++ ascii "Content-Type: " ++ contentType ++ ascii "\r\n" ++
          ascii "Access-Control-Allow-Origin: *\r\n" ++ ascii "Connection: keep-alive\r\n" ++
          ascii "Server: strfry\r\n" ++ ascii "Content-Length: " ++ to_string content.length ++
          ascii "\r\n\r\n" ++ content
      ∧ parseDecimal (to_string content.length) = content.length
      ∧ (preGenerateHttpResponse contentType content).drop
          ((preGenerateHttpResponse contentType content).length - content.length) = content := by
  have hsplit : ascii "\r\n\r\n" = ascii "\r\n" ++ ascii "\r\n" := by decide
  have h1 : preGenerateHttpResponse contentType content =
      ascii "HTTP/1.1 200 OK\r\n" ++ ascii "Content-Type: " ++ contentType ++ ascii "\r\n" ++
        ascii "Access-Control-Allow-Origin: *\r\n" ++ ascii "Connection: keep-alive\r\n" ++
        ascii "Server: strfry\r\n" ++ ascii "Content-Length: " ++ to_string content.length ++
        ascii "\r\n\r\n" ++ content := by
    simp only [preGenerateHttpResponse, hsplit, List.append_assoc]
  refine ⟨h1, parseDecimal_to_string _, ?_⟩
  · rw [h1]
    exact drop_length_sub_append _ content

/-- C1: in the `SendEventToBatch` branch, for the recipient at position `i`
whose subscription id fits in `MAX_SUBID_SIZE` bytes, the bytes handed to
`doSend` are the prefix `["EVENT","`, the id, `",`, the event JSON and `]`;
there are `13 + |subId| + |evJson|` of them, they start at offset
`MAX_SUBID_SIZE - |subId|` of `tempBuf` and end at its end, whatever the buffer
held before and whatever was written for the recipients before `i`. The last
part says that the run of the branch passes through this very call. -/
theorem batch_frame_form (env : Env) (st : State) (evJson : Bytes) (list : List Recipient)
    (i : Nat) (item : Recipient) (hi : list[i]? = some item)
    (hfit : item.subId.length ≤ env.MAX_SUBID_SIZE) :
    let before := (list.take i).foldl (sendEventToBatchItem env evJson)
      { st with tempBuf := prepareTempBuf env st.tempBuf evJson }
    batchPayload env before.tempBuf item.subId evJson =
        ascii "[\"EVENT\",\"" ++ item.subId ++ ascii "\"," ++ evJson ++ ascii "]"
      ∧ (batchPayload env before.tempBuf item.subId evJson).length =
          13 + item.subId.length + evJson.length
      ∧ envelopeStart env item.subId = ((env.MAX_SUBID_SIZE - item.subId.length : Nat) : Int)
      ∧ envelopeStart env item.subId + ((13 + item.subId.length + evJson.length : Nat) : Int) =
          (before.tempBuf.size : Int)
      ∧ handleMsg env st (MsgWebsocket.SendEventToBatch evJson list) =
          (list.drop (i + 1)).foldl (sendEventToBatchItem env evJson)
            (doSend env { before with tempBuf := writeEnvelope env before.tempBuf item.subId }
              item.connId (batchPayload env before.tempBuf item.subId evJson) OpCode.TEXT) := by
  intro before
  have hinv := (batch_loop env evJson (list.take i)
    { st with tempBuf := prepareTempBuf env st.tempBuf evJson }
    (prepareTempBuf_suffix env st.tempBuf evJson)).2.1
  refine ⟨batchPayload_eq env evJson before.tempBuf item.subId hinv, readBytes_length _ _ _, ?_, ?_, ?_⟩
  · unfold envelopeStart; omega
  · have hsz : before.tempBuf.size = 13 + env.MAX_SUBID_SIZE + evJson.length := hinv.2
    rw [hsz]; unfold envelopeStart; push_cast; omega
  · show List.foldl _ _ list = _
    conv_lhs => rw [split_at_index list i item hi]
    rw [List.foldl_append, List.foldl_cons]
    rfl

/-- C3: for a connection id that is not a key of `connIdToConnection`, `doSend`
returns the state it was given, and so does the handling of a `Send` or
`SendBinary` message with that id: nothing is sent, and the registry and every
connection's stats are unchanged. -/
theorem doSend_unknown_connection (env : Env) (st : State) (connId : Nat) (payload : Bytes)
    (opCode : OpCode) (h : connId ∉ st.connIdToConnection.keys) :
    doSend env st connId payload opCode = st
      ∧ handleMsg env st (MsgWebsocket.Send connId payload) = st
      ∧ handleMsg env st (MsgWebsocket.SendBinary connId payload) = st := by
  have hnone : st.connIdToConnection.find connId = none := by
    cases hf : st.connIdToConnection.find connId with
    | none => rfl
    | some p => exact absurd ((mem_keys_iff _ _).2 ⟨p, hf⟩) h
  exact ⟨doSend_unknown env st connId payload opCode hnone,
    doSend_unknown env st connId payload OpCode.TEXT hnone,
    doSend_unknown env st connId payload OpCode.BINARY hnone⟩

/-- C10: for a `SendEventToBatch` message whose subscription ids all fit, the
frames sent are those of the recipients in list order, restricted to the
entries whose connection id is registered, each a TEXT frame on the socket
registered for that id; unregistered entries are skipped and the registry is
unchanged. Every frame is read from a non-negative offset of `tempBuf`. -/
theorem batch_sends_in_order (env : Env) (st : State) (evJson : Bytes) (list : List Recipient)
    (hlive : RegistryLive st)
    (hfit : ∀ item ∈ list, item.subId.length ≤ env.MAX_SUBID_SIZE) :
    (handleMsg env st (MsgWebsocket.SendEventToBatch evJson list)).sent =
        st.sent ++ list.filterMap (fun item => (st.connIdToConnection.find item.connId).map
          (fun ws => ({ websocket := ws, payload := eventFrame item.subId evJson,
                        opCode := OpCode.TEXT } : SentFrame)))
      ∧ (handleMsg env st (MsgWebsocket.SendEventToBatch evJson list)).connIdToConnection =
          st.connIdToConnection
      ∧ (∀ item ∈ list, 0 ≤ envelopeStart env item.subId) := by
  have h := batch_loop env evJson list { st with tempBuf := prepareTempBuf env st.tempBuf evJson }
    (prepareTempBuf_suffix env st.tempBuf evJson)
  constructor
  · show (List.foldl (sendEventToBatchItem env evJson) _ list).sent = _
    rw [h.1]
    congr 1
    apply List.filterMap_congr
    intro item _
    have : socketOf { st with tempBuf := prepareTempBuf env st.tempBuf evJson } item.connId =
        socketOf st item.connId := rfl
    rw [this, socketOf_of_live st hlive]
  · refine ⟨(handleMsg_shape env st _).1, fun item hm => ?_⟩
    have := hfit item hm
    unfold envelopeStart
    omega

/-- C4, amended: from the initial state, after any sequence of events in which
only closed sockets connect, only open sockets disconnect and at most `2 ^ 64`
connections are made, the keys of `connIdToConnection` are exactly the ids of
the connections of the open sockets, the live `Connection` objects are exactly
those of the open sockets, and each key maps to the connection carrying it. -/
theorem registry_matches_open_connections (env : Env) (mem : Mem) (events : List LoopEvent)
    (hwf : wellFormedFrom [] events = true) (hcount : connectionCount events ≤ 2 ^ 64) :
    (∀ id, id ∈ (run env (State.init mem) events).connIdToConnection.keys ↔
        ∃ ws c, ws ∈ openAfter [] events ∧
          (run env (State.init mem) events).conns.find ws = some c ∧ c.connId = id)
      ∧ (∀ ws, ws ∈ openAfter [] events ↔
          ∃ c, (run env (State.init mem) events).conns.find ws = some c)
      ∧ (∀ id p, (run env (State.init mem) events).connIdToConnection.find id = some p →
          ∃ c, (run env (State.init mem) events).conns.find p = some c ∧
            c.connId = id ∧ c.websocket = p) := by
  have h := loopInv_run env events (State.init mem) [] 0 (loopInv_init mem) hwf
    (by rw [U64_eq]; omega)
  have hlive : ∀ ws, ws ∈ openAfter [] events ↔
      ∃ c, (run env (State.init mem) events).conns.find ws = some c := by
    intro ws
    rw [← identOf_isSome]
    exact (h.live ws).symm
  refine ⟨?_, hlive, ?_⟩
  · intro id
    rw [mem_keys_iff]
    constructor
    · rintro ⟨p, hp⟩
      obtain ⟨c, hc, hc1, _⟩ := (identOf_eq_some _ p id p).1 (h.registry id p hp)
      exact ⟨p, c, (hlive p).2 ⟨c, hc⟩, hc, hc1⟩
    · rintro ⟨ws, c, _, hc, hc1⟩
      exact ⟨ws, h.registered ws id c.websocket ((identOf_eq_some _ ws id c.websocket).2
        ⟨c, hc, hc1, rfl⟩)⟩
  · intro id p hp
    exact (identOf_eq_some _ p id p).1 (h.registry id p hp)

/-- C4, counterexample: socket 0 connects and stays open with id 1; socket 1
then connects and disconnects `2 ^ 64` times. The id counter wraps, the last
connection of socket 1 is given id 1 again, and its disconnection erases key 1:
the connection of socket 0 is open and no longer a key of the registry. -/
theorem registry_misses_open_connection_after_wrap :
    wellFormedFrom [] wrapEvents = true
      ∧ ¬ (∀ id, id ∈ (run demoEnv (State.init (fun _ => 0)) wrapEvents).connIdToConnection.keys ↔
          ∃ ws c, ws ∈ openAfter [] wrapEvents ∧
            (run demoEnv (State.init (fun _ => 0)) wrapEvents).conns.find ws = some c ∧
            c.connId = id) := by
  obtain ⟨w1, w2⟩ := wellFormed_rounds (2 ^ 64 - 1)
  have hopen : openAfter [] wrapEvents = [0] := by
    unfold wrapEvents
    rw [openAfter_connection, openAfter_append, w2]
    decide
  constructor
  · unfold wrapEvents
    rw [wellFormedFrom_connection, wellFormedFrom_append, w1, w2]
    decide
  · intro h
    obtain ⟨c0, hid, hc, hr⟩ := wrap_outcome demoEnv (fun _ => 0)
    have := (h 1).2 ⟨0, c0, by rw [hopen]; exact List.mem_singleton.2 rfl,
      by rw [hc]; simp [Table.find], hid⟩
    rw [hr] at this
    simp [Table.keys] at this

/-- C5: for a registered connection, after any sequence of drained outbound
messages and received frames, `bytesUp` is the start value plus the sizes of
the payloads passed to `doSend` for its id, and `bytesDown` the start value
plus the lengths of the frames received on its socket, both modulo `2 ^ 64`;
traffic of other connections does not enter the sums. -/
theorem byte_accounting (env : Env) (st : State) (events : List LoopEvent)
    (connId p : Nat) (c : Connection)
    (hlive : RegistryLive st)
    (hreg : st.connIdToConnection.find connId = some p)
    (hc : st.conns.find p = some c)
    (hup : c.stats.bytesUp < 2 ^ 64) (hdown : c.stats.bytesDown < 2 ^ 64)
    (htraffic : ∀ e ∈ events, isTraffic e = true) :
    ∃ c1, (run env st events).conns.find p = some c1
      ∧ c1.stats.bytesUp = (c.stats.bytesUp + bytesSentTo connId events) % 2 ^ 64
      ∧ c1.stats.bytesDown = (c.stats.bytesDown + bytesReceivedOn p events) % 2 ^ 64 := by
  have hkey : ∀ i, st.connIdToConnection.find i = some p ↔ i = connId := by
    intro i
    constructor
    · intro hi
      have h1 := hlive i p hi
      have h2 := hlive connId p hreg
      rw [h1] at h2
      exact congrArg Prod.fst (Option.some.inj h2)
    · intro e; rw [e]; exact hreg
  have h0 : upDown st p = some (c.stats.bytesUp, c.stats.bytesDown) :=
    (upDown_eq_some st p _ _).2 ⟨c, hc, rfl, rfl⟩
  have := traffic_upDown env connId p events st _ _ hkey h0 hup hdown htraffic
  obtain ⟨c1, h1, h2, h3⟩ := (upDown_eq_some _ p _ _).1 this
  exact ⟨c1, h1, h2, h3⟩

/-- C7, counterexample: when the configuration version is 0 the first call of
`getServerInfoHttpResponse` returns the empty byte string, not the rendered
document. -/
theorem first_info_call_at_version_zero_is_empty :
    (getServerInfoHttpResponse demoJsonToString (ascii "1.0") configZero InfoCache.init).2 = []
      ∧ renderInfo demoJsonToString (ascii "1.0") configZero ≠ [] := by
  decide

/-- C7, amended: when the configuration version is not 0, the first call of
`getServerInfoHttpResponse` returns the rendered HTTP response of the info
document, which is not empty, and stores the version. -/
theorem first_info_call_renders (jsonToString : JsonValue → Bytes) (appGitVersion : Bytes)
    (cfg : Config) (hver : cfg.version ≠ 0) :
    (getServerInfoHttpResponse jsonToString appGitVersion cfg InfoCache.init).2 =
        preGenerateHttpResponse (ascii "application/json")
          (jsonToString (infoDocument appGitVersion cfg))
      ∧ (getServerInfoHttpResponse jsonToString appGitVersion cfg InfoCache.init).2 ≠ []
      ∧ (getServerInfoHttpResponse jsonToString appGitVersion cfg InfoCache.init).1.ver =
          cfg.version := by
  have h0 : InfoCache.init.ver ≠ cfg.version := fun e => hver e.symm
  have h : getServerInfoHttpResponse jsonToString appGitVersion cfg InfoCache.init =
      ({ ver := cfg.version, rendered := renderInfo jsonToString appGitVersion cfg },
        renderInfo jsonToString appGitVersion cfg) := by
    unfold getServerInfoHttpResponse
    simp [h0]
  rw [h]
  refine ⟨rfl, ?_, rfl⟩
  exact preGenerateHttpResponse_ne_nil _ _

/-- C8, counterexample: for a connection that transferred no bytes the value
handed to `renderPercent` is NaN in both directions, not 0. -/
theorem zero_bytes_ratio_is_nan :
    compressionRatio (fun q => q) 0 0 = F64.nan
      ∧ disconnectRatios (fun q => q)
          { websocket := 5, connId := 1, connectedTimestamp := 0, ipAddr := [],
            stats := { bytesUp := 0, bytesUpCompressed := 0, bytesDown := 0,
                       bytesDownCompressed := 0 } } = (F64.nan, F64.nan)
      ∧ F64.nan ≠ F64.finite 0 := by
  decide

/-- C8, amended: the ratio has no zero guard. For counters below `2 ^ 53`: with
a zero raw counter it is NaN when the compressed counter is zero too and minus
infinity otherwise; with a non-zero raw counter it is
`1 - compressed / raw`, rounded after the division and after the
subtraction. -/
theorem compressionRatio_unguarded (rnd : ℚ → ℚ) (compressed raw : Nat)
    (hc : compressed < 2 ^ 53) (hr : raw < 2 ^ 53) :
    (raw = 0 → compressed = 0 → compressionRatio rnd compressed raw = F64.nan)
      ∧ (raw = 0 → 0 < compressed → compressionRatio rnd compressed raw = F64.negInf)
      ∧ (0 < raw → compressionRatio rnd compressed raw =
          F64.finite (rnd (1 - rnd ((compressed : ℚ) / (raw : ℚ))))) := by
  have ec : F64.ofUInt64 rnd compressed = F64.finite (compressed : ℚ) := by
    unfold F64.ofUInt64; rw [if_pos hc]
  have er : F64.ofUInt64 rnd raw = F64.finite (raw : ℚ) := by
    unfold F64.ofUInt64; rw [if_pos hr]
  unfold compressionRatio
  rw [ec, er]
  refine ⟨?_, ?_, ?_⟩
  · intro h1 h2
    subst h1; subst h2
    simp [F64.div, F64.sub]
  · intro h1 h2
    subst h1
    have hpos : (0 : ℚ) < (compressed : ℚ) := by exact_mod_cast h2
    have hne : ¬ (compressed : ℚ) = 0 := ne_of_gt hpos
    simp [F64.div, F64.sub, hne, h2]
  · intro h1
    have hne : ¬ (raw : ℚ) = 0 := by
      have : (0 : ℚ) < (raw : ℚ) := by exact_mod_cast h1
      exact ne_of_gt this
    simp [F64.div, F64.sub, hne]

/-- C1, witness: a batch with the single recipient id `ab`. -/
theorem batch_frame_form_witness :
    ([⟨1, ascii "ab"⟩] : List Recipient)[0]? = some ⟨1, ascii "ab"⟩
      ∧ (ascii "ab").length ≤ demoEnv.MAX_SUBID_SIZE
      ∧ batchPayload demoEnv (prepareTempBuf demoEnv demoState.tempBuf (ascii "E"))
          (ascii "ab") (ascii "E") = ascii "[\"EVENT\",\"ab\",E]" :=
  ⟨rfl, by decide,
    ((batch_frame_form demoEnv demoState (ascii "E") [⟨1, ascii "ab"⟩] 0 ⟨1, ascii "ab"⟩ rfl
      (by decide)).1).trans (by decide)⟩

/-- C3, witness: the unregistered id 2 in `demoState`. -/
theorem doSend_unknown_connection_witness :
    2 ∉ demoState.connIdToConnection.keys
      ∧ doSend demoEnv demoState 2 (ascii "x") OpCode.BINARY = demoState :=
  ⟨by decide, (doSend_unknown_connection demoEnv demoState 2 (ascii "x") OpCode.BINARY
    (by decide)).1⟩

/-- C4, witness: the events `demoLifecycle`. -/
theorem registry_matches_open_connections_witness :
    wellFormedFrom [] demoLifecycle = true
      ∧ connectionCount demoLifecycle ≤ 2 ^ 64
      ∧ (∀ ws, ws ∈ openAfter [] demoLifecycle ↔
          ∃ c, (run demoEnv (State.init (fun _ => 0)) demoLifecycle).conns.find ws = some c) :=
  ⟨by decide, by decide,
    (registry_matches_open_connections demoEnv (fun _ => 0) demoLifecycle (by decide)
      (by decide)).2.1⟩

/-- C5, witness: the events `demoTraffic` for the connection of socket 5. -/
theorem byte_accounting_witness :
    demoState.connIdToConnection.find 1 = some 5
      ∧ demoState.conns.find 5 = some demoConnection
      ∧ (∀ e ∈ demoTraffic, isTraffic e = true)
      ∧ ∃ c1, (run demoEnv demoState demoTraffic).conns.find 5 = some c1
          ∧ c1.stats.bytesUp = (demoConnection.stats.bytesUp + bytesSentTo 1 demoTraffic) % 2 ^ 64
          ∧ c1.stats.bytesDown =
              (demoConnection.stats.bytesDown + bytesReceivedOn 5 demoTraffic) % 2 ^ 64 :=
  ⟨by decide, by decide, by decide,
    byte_accounting demoEnv demoState demoTraffic 1 5 demoConnection demoState_live (by decide)
      (by decide) (by decide) (by decide) (by decide)⟩

/-- C10, witness: a batch with an unregistered and a registered recipient. -/
theorem batch_sends_in_order_witness :
    (∀ item ∈ ([⟨2, ascii "x"⟩, ⟨1, ascii "ab"⟩] : List Recipient),
        item.subId.length ≤ demoEnv.MAX_SUBID_SIZE)
      ∧ (handleMsg demoEnv demoState (MsgWebsocket.SendEventToBatch (ascii "E")
          [⟨2, ascii "x"⟩, ⟨1, ascii "ab"⟩])).sent =
          [{ websocket := 5, payload := ascii "[\"EVENT\",\"ab\",E]", opCode := OpCode.TEXT }] :=
  ⟨by decide,
    ((batch_sends_in_order demoEnv demoState (ascii "E") [⟨2, ascii "x"⟩, ⟨1, ascii "ab"⟩]
      demoState_live (by decide)).1).trans (by decide)⟩

/-- C7, witness: version 1. -/
theorem first_info_call_renders_witness :
    configOne.version ≠ 0
      ∧ (getServerInfoHttpResponse demoJsonToString (ascii "1.0") configOne InfoCache.init).2 =
          preGenerateHttpResponse (ascii "application/json")
            (demoJsonToString (infoDocument (ascii "1.0") configOne)) :=
  ⟨by decide,
    (first_info_call_renders demoJsonToString (ascii "1.0") configOne (by decide)).1⟩

/-- C8, witness: 2 compressed bytes for 4 raw bytes. -/
theorem compressionRatio_unguarded_witness :
    (2 : Nat) < 2 ^ 53 ∧ (4 : Nat) < 2 ^ 53 ∧ 0 < (4 : Nat)
      ∧ compressionRatio (fun q => q) 2 4 =
          F64.finite (1 - ((2 : Nat) : ℚ) / ((4 : Nat) : ℚ)) :=
  ⟨by decide, by decide, by decide,
    (compressionRatio_unguarded (fun q => q) 2 4 (by decide) (by decide)).2.2 (by decide)⟩

end Strfry
